import Mathlib

/-!
Verification of the httplive_dvr core against its specification.

The development shallowly embeds the Rust core of the repository:

* `src/recording.rs` — `sanitize_name`, `rewrite_playlist_to_vod`,
  `extract_segment_list`, `normalize_segment_path`, the ffmpeg supervision
  loop inside `start_ffmpeg`, and `finalize_to_vod`;
* `src/state.rs` — `RecordingManager` (`start`, `stop`, `finish`,
  `is_running`, `save`, `load`).

Modelling conventions:

* Rust `String`/`&str` values are Lean `String`s; `str::lines`, `trim`,
  `trim_end`, `starts_with`, `ends_with` are re-implemented below over
  `String.data` with the documented Rust semantics (whitespace is the
  Unicode White_Space set that `char::is_whitespace` matches, spelled out
  in `rustIsWhitespace`).
* Filesystem paths are lists of components; `std::fs::canonicalize` is
  modelled lexically over an explicit set of existing canonical paths
  (a symlink-free filesystem), see `canonicalize`.
* The async mutex-guarded `HashMap` of `RecordingManager` is modelled as an
  association list together with the persisted snapshot, a count of
  snapshot writes, and the list of fired cancellation handles; the
  snapshot write (`save`) is assumed to succeed, matching the claims that
  are conditional on successful persistence.
* `tokio::select!` racing process exit against the stop channel inside
  `start_ffmpeg` is modelled by the `WaitOutcome` datatype; the branch
  logic that sets the `restart` flag is `waitRestartFlag`.
-/

namespace HttpliveDvr

/-! ## String primitives (Rust `str` operations used by the core) -/

/-- Rust `str::starts_with(p)`: `p` is a prefix of `s`. -/
def strStartsWith (s p : String) : Bool :=
  p.data.isPrefixOf s.data

/-- Rust `str::ends_with(p)` (used to model where `String::replacen`
can match `"#EXTM3U\n"` inside a newline-joined line list). -/
def strEndsWith (s p : String) : Bool :=
  p.data.isSuffixOf s.data

/-- Rust `char::is_whitespace`: the Unicode White_Space set,
`' ' | '\x09'..='\x0d' | U+0085 | U+00A0 | U+1680 | U+2000..=U+200A |
U+2028 | U+2029 | U+202F | U+205F | U+3000`.  In particular the ASCII
vertical tab `\x0b` and form feed `\x0c` are whitespace. -/
def rustIsWhitespace (c : Char) : Bool :=
  c = ' ' || ('\x09' ≤ c && c ≤ '\x0d') || c = '\u0085' || c = '\u00a0'
    || c = '\u1680' || ('\u2000' ≤ c && c ≤ '\u200a') || c = '\u2028'
    || c = '\u2029' || c = '\u202f' || c = '\u205f' || c = '\u3000'

/-- Rust `str::trim_end`: remove trailing whitespace. -/
def trimEnd (s : String) : String :=
  String.mk (s.data.rdropWhile rustIsWhitespace)

/-- Rust `str::trim`: remove leading and trailing whitespace. -/
def trimBoth (s : String) : String :=
  String.mk ((s.data.dropWhile rustIsWhitespace).rdropWhile rustIsWhitespace)

/-- Splitting a character list at every `'\n'`, with the final line
terminator optional: the direct recursion equivalent of Rust
`str::lines` before `'\r'`-stripping.  `"" ↦ []`, `"a\n" ↦ ["a"]`,
`"a\n\n" ↦ ["a", ""]`. -/
def splitNL : List Char → List (List Char)
  | [] => []
  | c :: cs =>
    if c = '\n' then [] :: splitNL cs
    else
      match splitNL cs with
      | [] => [[c]]
      | l :: ls => (c :: l) :: ls

/-- Inverse of `splitNL` on newline-free lines: join each line followed by
`'\n'`.  This is exactly how `rewrite_playlist_to_vod` builds its output
(`out.push_str(line); out.push('\n')`). -/
def joinNL : List (List Char) → List Char
  | [] => []
  | l :: ls => l ++ '\n' :: joinNL ls

/-- Rust `str::lines` strips one trailing `'\r'` from each line. -/
def stripCR (cs : List Char) : List Char :=
  if cs.getLast? = some '\x0d' then cs.dropLast else cs

/-- Rust `str::lines` as a whole-string operation. -/
def rustLines (s : String) : List String :=
  (splitNL s.data).map (fun cs => String.mk (stripCR cs))

/-- Serialize a list of lines, each followed by `'\n'`. -/
def stringOfLines (ls : List String) : String :=
  String.mk (joinNL (ls.map String.data))

/-- One-line image of Rust `str::lines` line post-processing:
strip a single trailing `'\r'`. -/
def crStrip (s : String) : String :=
  String.mk (stripCR s.data)

/-- Splitting a character list at every occurrence of `sep`, keeping empty
parts (Rust `str::split(sep)` semantics); used to model the component view
of `std::path::Path`. -/
def splitOnChar (sep : Char) : List Char → List (List Char)
  | [] => [[]]
  | c :: cs =>
    if c = sep then [] :: splitOnChar sep cs
    else
      match splitOnChar sep cs with
      | [] => [[c]]
      | l :: ls => (c :: l) :: ls

/-- Rust `Path::new(l).file_name()`: the last normal component of the
path, or `None` when the path ends in `..` or has no normal component.
Splitting at `'/'` and dropping empty and `"."` components matches
`std::path::Components` on Unix for the inputs the core sees. -/
def fileNameOf (l : String) : Option String :=
  let comps := ((splitOnChar '/' l.data).map String.mk).filter
    (fun c => !(c == "") && !(c == "."))
  match comps.getLast? with
  | none => none
  | some c => if c = ".." then none else some c

/-- Rust `Path::new(l).file_name().map(..).unwrap_or_else(|| l.to_string())`
as used in `rewrite_playlist_to_vod`: the basename, falling back to the
whole string. -/
def basenameOf (l : String) : String :=
  (fileNameOf l).getD l

/-! ## NameValidator (`sanitize_name`, src/recording.rs:27-36) -/

/-- Rust `c.is_ascii_alphanumeric() || c == '_' || c == '-'`. -/
def isValidNameChar (c : Char) : Bool :=
  (('0' ≤ c && c ≤ '9') || ('A' ≤ c && c ≤ 'Z') || ('a' ≤ c && c ≤ 'z'))
    || c == '_' || c == '-'

/-- `sanitize_name` (src/recording.rs:27-36): return the name unchanged
when it is non-empty and all characters are ASCII alphanumeric, `_` or
`-`; otherwise bail with the `invalid name` error. -/
def sanitize_name (name : String) : Except String String :=
  if name.data.isEmpty || !(name.data.all isValidNameChar) then
    Except.error ("invalid name: " ++ name)
  else
    Except.ok name

/-! ## CaptureSupervisor (the loop inside `start_ffmpeg`,
src/recording.rs:70-134) -/

/-- Outcome of `cmd.spawn()` (src/recording.rs:97-103). -/
inductive SpawnResult
  | ok
  | failed
deriving DecidableEq

/-- Outcome of the `tokio::select!` that races `child.wait()` against the
stop channel (src/recording.rs:106-124): the process exited with a status
(`success` per `ExitStatus::success`), `child.wait()` itself returned an
error, or the cancellation channel fired first. -/
inductive WaitOutcome
  | exited (success : Bool)
  | waitFailed
  | stopRequested
deriving DecidableEq

/-- Whether the loop iteration continues (`Retrying`) or leaves the loop. -/
inductive LoopDecision
  | retryLoop
  | exitLoop
deriving DecidableEq

/-- Value of the `restart` flag after the `select!` block
(src/recording.rs:105-124): set only when the process exited with a
non-success status; a wait error and a cancellation leave it `false`. -/
def waitRestartFlag : WaitOutcome → Bool
  | .exited status => !status
  | .waitFailed => false
  | .stopRequested => false

/-- One iteration of the supervision loop: a spawn failure breaks out of
the loop (src/recording.rs:99-102); otherwise the loop continues exactly
when `restart` is set (src/recording.rs:126-128). -/
def supervisorStep : SpawnResult → WaitOutcome → LoopDecision
  | .failed, _ => .exitLoop
  | .ok, w => if waitRestartFlag w then .retryLoop else .exitLoop

/-- Number of times ffmpeg is spawned, given the successive wait outcomes
of the (always successful) spawns: each retry decision loops back to a new
spawn. -/
def spawnCount : List WaitOutcome → Nat
  | [] => 1
  | w :: ws => if waitRestartFlag w then 1 + spawnCount ws else 1

/-! ## JobRegistry (`RecordingManager`, src/state.rs) -/

/-- `StartReq` (src/recording.rs:15-21): the persisted job descriptor. -/
structure StartReq where
  name : String
  input_url : String
  hls_time : Nat
deriving DecidableEq

/-- `RecordingControl` (src/state.rs:23-26): the in-memory record; the
oneshot cancellation sender is modelled by an abstract handle id. -/
structure RecordingControl where
  stop : Option Nat
  req : StartReq
deriving DecidableEq

/-- State of a `RecordingManager` (src/state.rs:17-21) together with the
observable effects of `save`: the snapshot most recently written to the
persist path, the number of snapshot writes performed, and the
cancellation handles that have been signalled.  The `Mutex<HashMap<..>>`
is modelled as an association list with at most one entry per key (an
invariant `start` maintains); `save` is modelled as always succeeding. -/
structure ManagerState where
  inner : List (String × RecordingControl)
  persisted : List StartReq
  writes : Nat
  signals : List Nat
deriving DecidableEq

/-- `HashMap::get`/`contains_key` on the association-list model. -/
def lookupA {α : Type} : List (String × α) → String → Option α
  | [], _ => none
  | (k, v) :: rest, n => if k = n then some v else lookupA rest n

/-- `HashMap::remove` on the association-list model (removes the key). -/
def eraseA {α : Type} (m : List (String × α)) (n : String) : List (String × α) :=
  m.filter (fun p => !(p.1 == n))

/-- `map.values().map(|c| &c.req)` (src/state.rs:37): the snapshot body. -/
def valuesReqs (m : List (String × RecordingControl)) : List StartReq :=
  m.map (fun p => p.2.req)

/-- Error raised by `RecordingManager::start` on a duplicate name. -/
inductive RegErr
  | alreadyRunning
deriving DecidableEq

namespace RecordingManager

/-- `RecordingManager::start` (src/state.rs:53-66): under the lock, fail
when the name already has a record; otherwise insert the record and write
the snapshot.  `none` in the first component is Rust `Ok(())`. -/
def start (st : ManagerState) (req : StartReq) (stopHandle : Nat) :
    Option RegErr × ManagerState :=
  if (lookupA st.inner req.name).isSome then
    (some RegErr.alreadyRunning, st)
  else
    let m := (req.name, ⟨some stopHandle, req⟩) :: st.inner
    (none, { st with inner := m, persisted := valuesReqs m, writes := st.writes + 1 })

/-- `RecordingManager::stop` (src/state.rs:68-77): remove the record if
present, fire its cancellation handle (the send result is ignored), and
write the snapshot; a name with no record is a no-op returning `Ok(())`.
With the persistence write modelled as succeeding the function is total
and never errors. -/
def stop (st : ManagerState) (name : String) : ManagerState :=
  match lookupA st.inner name with
  | none => st
  | some ctrl =>
    let m := eraseA st.inner name
    let sigs := match ctrl.stop with
      | some h => st.signals ++ [h]
      | none => st.signals
    { inner := m, persisted := valuesReqs m, writes := st.writes + 1, signals := sigs }

/-- `RecordingManager::finish` (src/state.rs:79-84): remove the record if
still present and write the snapshot; otherwise do nothing. -/
def finish (st : ManagerState) (name : String) : ManagerState :=
  match lookupA st.inner name with
  | none => st
  | some _ =>
    let m := eraseA st.inner name
    { st with inner := m, persisted := valuesReqs m, writes := st.writes + 1 }

/-- `RecordingManager::is_running` (src/state.rs:86-89). -/
def is_running (st : ManagerState) (name : String) : Bool :=
  (lookupA st.inner name).isSome

/-- Kind of error returned by `tokio::fs::read_to_string`. -/
inductive IoErrKind
  | notFound
  | permissionDenied
  | otherErr
deriving DecidableEq

/-- Result of the `fs::read_to_string(&self.persist_path)` call inside
`RecordingManager::load`. -/
inductive ReadResult
  | ok (content : String)
  | err (k : IoErrKind)
deriving DecidableEq

/-- `RecordingManager::load` (src/state.rs:46-51): deserialize the file
content on a successful read (`serde_json::from_str`, modelled by the
abstract `parse` argument, errors propagating via `?`), and return the
empty list for every read error. -/
def load (parse : String → Except Unit (List StartReq)) (r : ReadResult) :
    Except Unit (List StartReq) :=
  match r with
  | .ok content => parse content
  | .err _ => Except.ok []

end RecordingManager

/-! ## PlaylistTransform (`rewrite_playlist_to_vod` and
`extract_segment_list`, src/recording.rs:216-274)

The Rust function walks `original.lines()`, pushing one output line (plus
`'\n'`) per input line, then performs three string-level fixups.  The body
of the loop is the per-line map `lineRewrite`; the three `has_*` flags are
each `List.any` of a per-line predicate because every branch of the loop
that sets a flag is reached exactly when the corresponding prefix test on
the trimmed line succeeds (the three prefixes are mutually non-nested, so
the `continue`s do not change which lines set which flag).  The
`out.replacen("#EXTM3U\n", "#EXTM3U\n#EXT-X-PLAYLIST-TYPE:VOD\n", 1)`
fixup is modelled by `insertTypeAfterHeader`: in a `'\n'`-joined list of
`'\n'`-free lines, the occurrences of the pattern `"#EXTM3U\n"` are
exactly the lines whose suffix is `"#EXTM3U"`, in list order, and
replacing the first occurrence inserts `"#EXT-X-PLAYLIST-TYPE:VOD"` as a
new line directly after that line. -/

/-- Line pushed for a `#EXTM3U` header (src/recording.rs:237). -/
def hdrLine : String := "#EXTM3U"

/-- Prefix of a playlist-type directive (src/recording.rs:240). -/
def typeMark : String := "#EXT-X-PLAYLIST-TYPE:"

/-- Rewritten playlist-type directive (src/recording.rs:242). -/
def vodLine : String := "#EXT-X-PLAYLIST-TYPE:VOD"

/-- Terminal end-of-list marker (src/recording.rs:245,270). -/
def endLine : String := "#EXT-X-ENDLIST"

/-- Loop body of `rewrite_playlist_to_vod` (src/recording.rs:233-261):
trim the line end; normalize a header line to `#EXTM3U`; rewrite a
playlist-type directive to VOD; copy any other directive line verbatim;
replace a segment URI by its basename. -/
def lineRewrite (line : String) : String :=
  if strStartsWith (trimEnd line) hdrLine then hdrLine
  else if strStartsWith (trimEnd line) typeMark then vodLine
  else if strStartsWith (trimEnd line) "#" then trimEnd line
  else basenameOf (trimEnd line)

/-- Line that sets `has_header` (src/recording.rs:235-236). -/
def isHeaderLine (line : String) : Bool :=
  strStartsWith (trimEnd line) hdrLine

/-- Line that sets `has_type` (src/recording.rs:240-241). -/
def isTypeLine (line : String) : Bool :=
  strStartsWith (trimEnd line) typeMark

/-- Line that sets `has_endlist` (src/recording.rs:245-247). -/
def isEndlistLine (line : String) : Bool :=
  strStartsWith (trimEnd line) endLine

/-- Line-level model of the `replacen` fixup (src/recording.rs:267):
insert the VOD directive directly after the first line ending in
`#EXTM3U`; no change when no such line exists (no pattern occurrence). -/
def insertTypeAfterHeader : List String → List String
  | [] => []
  | l :: ls =>
    if strEndsWith l hdrLine then l :: vodLine :: ls
    else l :: insertTypeAfterHeader ls

/-- Header fixup (src/recording.rs:263-265): prepend `#EXTM3U\n` when no
input line set `has_header`. -/
def stageHeader (x : List String) (out : List String) : List String :=
  if x.any isHeaderLine then out else hdrLine :: out

/-- Type fixup (src/recording.rs:266-268): when no input line set
`has_type`, insert the VOD directive after the first `#EXTM3U\n`
occurrence (see `insertTypeAfterHeader`). -/
def stageType (x : List String) (out : List String) : List String :=
  if x.any isTypeLine then out else insertTypeAfterHeader out

/-- Endlist fixup (src/recording.rs:269-271): append `#EXT-X-ENDLIST\n`
when no input line set `has_endlist`. -/
def stageEnd (x : List String) (out : List String) : List String :=
  if x.any isEndlistLine then out else out ++ [endLine]

/-- `rewrite_playlist_to_vod` (src/recording.rs:226-274) on the line list
of the input: the per-line loop, then the header-prepend, type-insert and
endlist-append fixups (src/recording.rs:263-271). -/
def rewriteLines (x : List String) : List String :=
  stageEnd x (stageType x (stageHeader x (x.map lineRewrite)))

/-- `rewrite_playlist_to_vod` (src/recording.rs:226-274): the function
always returns `Ok`, so the `Result` wrapper is dropped. -/
def rewrite_playlist_to_vod (original : String) : String :=
  stringOfLines (rewriteLines (rustLines original))

/-- `extract_segment_list` (src/recording.rs:216-224): every trimmed,
non-empty, non-comment line is a segment URI, in file order. -/
def extract_segment_list (playlist : String) : List String :=
  ((rustLines playlist).map trimBoth).filter
    (fun l => !l.isEmpty && !(strStartsWith l "#"))

/-- Number of playlist-type directive lines in a line list. -/
def countTypeLines (ls : List String) : Nat :=
  ls.countP (fun l => strStartsWith l typeMark)

/-! ## PathGuard (`normalize_segment_path`, src/recording.rs:276-301)

Paths are modelled by their component lists; a candidate reference is
parsed by splitting at `'/'` and dropping empty components (which is how
`std::path::Components` treats repeated separators).  `fs::canonicalize`
is modelled lexically over an explicit, finite set `w` of existing
canonical absolute paths: resolve `.` and `..` components (with `..` at
the root staying at the root, as on Linux) and fail unless the result
exists in `w`.  This is a symlink-free model of the real call. -/

/-- Rust `Path::new(s).is_absolute()` on Unix. -/
def isAbsolutePath (s : String) : Bool :=
  strStartsWith s "/"

/-- Component list of a path string (empty components dropped, `.` and
`..` kept for `resolveDots`). -/
def pathComps (s : String) : List String :=
  ((splitOnChar '/' s.data).map String.mk).filter (fun c => !(c == ""))

/-- Lexical resolution of `.` and `..` components of an absolute path. -/
def resolveDots (comps : List String) : List String :=
  comps.foldl
    (fun acc c =>
      if c = "." then acc
      else if c = ".." then acc.dropLast
      else acc ++ [c])
    []

/-- Model of `std::fs::canonicalize` over the set `w` of existing
canonical absolute paths (symlink-free filesystem). -/
def canonicalize (w : List (List String)) (p : List String) :
    Option (List String) :=
  let n := resolveDots p
  if n ∈ w then some n else none

/-- Errors of `normalize_segment_path`: the two `canonicalize` context
errors and the `escapes pending directory` bail. -/
inductive PathErr
  | canonRootFailed
  | canonSegFailed
  | escape
deriving DecidableEq

/-- `normalize_segment_path` (src/recording.rs:276-301): resolve a
relative candidate against the pending root (an absolute one is taken
as-is), canonicalize the root and the resolved path, and require the
canonical candidate to start with the canonical root (Rust
`Path::starts_with` is component-wise prefix). -/
def normalize_segment_path (w : List (List String)) (pending_dir : List String)
    (seg : String) : Except PathErr (List String) :=
  let p := pathComps seg
  let joined := if isAbsolutePath seg then p else pending_dir ++ p
  match canonicalize w pending_dir with
  | none => Except.error PathErr.canonRootFailed
  | some base =>
    match canonicalize w joined with
    | none => Except.error PathErr.canonSegFailed
    | some canon =>
      if base.isPrefixOf canon then Except.ok canon
      else Except.error PathErr.escape

/-! ## ArchiveTransition (`finalize_to_vod`, src/recording.rs:148-214)

The filesystem state touched by finalize is modelled by `Dvr`: the
pending playlists (`<pending>/<name>.m3u8`, keyed by name, with their
text), the segment files sitting directly in the pending directory, the
archive indexes (`<finished>/<name>/index.m3u8`) and the archived segment
files per name, plus the `RecordingManager` state (finalize calls `stop`
best-effort).  Directory creation (`create_dir_all`) and the final
removal of the pending playlist are modelled as succeeding; a removal
failure is logged and non-fatal in the source.  The cross-device
hard-link fallback of the segment move is invisible at this level: both
paths relocate the file. -/

/-- Errors of `finalize_to_vod`; `moveFailed` stands for any error
propagated out of the segment-move loop, including the guard errors of
`normalize_segment_path`. -/
inductive FinErr
  | invalidName
  | noSuchPending
  | alreadyFinalized
  | moveFailed
deriving DecidableEq

/-- Filesystem-plus-registry state seen by finalize. -/
structure Dvr where
  mgr : ManagerState
  pendingPl : List (String × String)
  pendingSegs : List String
  archIdx : List (String × String)
  archSegs : List (String × String)
deriving DecidableEq

/-- Existing canonical paths of the pending tree: the pending root and
one entry per segment file directly inside it. -/
def worldOf (proot : List String) (d : Dvr) : List (List String) :=
  proot :: d.pendingSegs.map (fun f => proot ++ [f])

/-- Segment-move loop of `finalize_to_vod` (src/recording.rs:173-200):
guard each URI through `normalize_segment_path`, skip a segment whose
destination already exists, otherwise relocate it from the pending
directory into the archive directory of `name`; the first failure aborts
the loop, leaving earlier moves done.  (On a `file_name()` of `None` the
Rust code would panic in `.unwrap()`; the model returns the error.) -/
def moveSegs (proot : List String) (name : String) :
    Dvr → List String → Dvr × Option FinErr
  | d, [] => (d, none)
  | d, seg :: rest =>
    match normalize_segment_path (worldOf proot d) proot seg with
    | Except.error _ => (d, some FinErr.moveFailed)
    | Except.ok src =>
      match fileNameOf seg with
      | none => (d, some FinErr.moveFailed)
      | some base =>
        if (name, base) ∈ d.archSegs then moveSegs proot name d rest
        else
          match src.drop proot.length with
          | [f] =>
            if f ∈ d.pendingSegs then
              moveSegs proot name
                { d with
                  pendingSegs := d.pendingSegs.filter (fun g => !(g == f)),
                  archSegs := (name, base) :: d.archSegs }
                rest
            else (d, some FinErr.moveFailed)
          | _ => (d, some FinErr.moveFailed)

/-- `finalize_to_vod` (src/recording.rs:148-214): validate the name, stop
the recording best-effort, require the pending playlist to exist, extract
its segment list, require the archive index not to exist yet, move the
segments, write the rewritten VOD playlist as the archive index, and
remove the pending playlist. -/
def finalize_to_vod (proot : List String) (d : Dvr) (name : String) :
    Dvr × Option FinErr :=
  match sanitize_name name with
  | Except.error _ => (d, some FinErr.invalidName)
  | Except.ok n =>
    let d1 : Dvr := { d with mgr := RecordingManager.stop d.mgr n }
    match lookupA d1.pendingPl n with
    | none => (d1, some FinErr.noSuchPending)
    | some content =>
      let segments := extract_segment_list content
      if (lookupA d1.archIdx n).isSome then (d1, some FinErr.alreadyFinalized)
      else
        match moveSegs proot n d1 segments with
        | (d2, some e) => (d2, some e)
        | (d2, none) =>
          let d3 : Dvr := { d2 with
            archIdx := (n, rewrite_playlist_to_vod content) :: d2.archIdx }
          ({ d3 with pendingPl := eraseA d3.pendingPl n }, none)

/-! ## Concrete fixtures used by witnesses -/

/-- Small filesystem world: a pending root with one segment, and
`/etc/passwd`. -/
def w0 : List (List String) :=
  [["data", "pending"], ["data", "pending", "seg_001.ts"],
   ["etc", "passwd"], ["etc"], ["data"]]

/-- Pending root used with `w0`. -/
def pdir0 : List String := ["data", "pending"]

/-- Sample job descriptor. -/
def req0 : StartReq :=
  { name := "cam1", input_url := "rtsp://example/stream", hls_time := 6 }

/-- Empty registry state. -/
def st0 : ManagerState :=
  { inner := [], persisted := [], writes := 0, signals := [] }

/-- Registry state with `cam1` registered (result of a successful start). -/
def st1 : ManagerState :=
  (RecordingManager.start st0 req0 0).2

/-- Filesystem state with a pending `cam1` playlist whose archive index
already exists. -/
def dvr1 : Dvr :=
  { mgr := st0
    pendingPl := [("cam1", "#EXTM3U\nseg_0.ts\n")]
    pendingSegs := ["seg_0.ts"]
    archIdx := [("cam1", "old")]
    archSegs := [] }

/-- Filesystem state with no pending playlist for `cam1`. -/
def dvr2 : Dvr :=
  { mgr := st0
    pendingPl := []
    pendingSegs := []
    archIdx := [("cam1", "old")]
    archSegs := [] }

/-! ## Registry lemmas -/

theorem lookupA_eraseA {α : Type} (m : List (String × α)) (n : String) :
    lookupA (eraseA m n) n = none := by
  induction m with
  | nil => rfl
  | cons p rest ih =>
    obtain ⟨k, v⟩ := p
    by_cases h : k = n
    · simpa [eraseA, List.filter_cons, h] using ih
    · simpa [eraseA, List.filter_cons, h, lookupA] using ih

theorem lookupA_stop (st : ManagerState) (nm : String) :
    lookupA (RecordingManager.stop st nm).inner nm = none := by
  unfold RecordingManager.stop
  cases hc : lookupA st.inner nm with
  | none => simp [hc]
  | some ctrl => simp [hc, lookupA_eraseA]

theorem lookupA_finish (st : ManagerState) (nm : String) :
    lookupA (RecordingManager.finish st nm).inner nm = none := by
  unfold RecordingManager.finish
  cases hc : lookupA st.inner nm with
  | none => simp [hc]
  | some ctrl => simp [hc, lookupA_eraseA]

/-- C5: registry `Start` fails with `AlreadyRunning` exactly when the name
already has a record, leaving the state (map and snapshot) unchanged; on
an absent name it inserts the record and persists the snapshot, making
`is_running` true; an immediate second `Start` with the same name fails
with `AlreadyRunning`; after `stop` or `finish` has removed the name, a
`Start` with that name succeeds again. -/
theorem c5_registry_start :
    (∀ (st : ManagerState) (req : StartReq) (h : Nat),
        (lookupA st.inner req.name).isSome = true →
        RecordingManager.start st req h = (some RegErr.alreadyRunning, st)) ∧
    (∀ (st : ManagerState) (req : StartReq) (h : Nat),
        lookupA st.inner req.name = none →
        (RecordingManager.start st req h).1 = none ∧
        RecordingManager.is_running (RecordingManager.start st req h).2 req.name = true ∧
        (RecordingManager.start st req h).2.persisted =
          valuesReqs (RecordingManager.start st req h).2.inner) ∧
    (∀ (st : ManagerState) (req : StartReq) (h h2 : Nat),
        lookupA st.inner req.name = none →
        (RecordingManager.start (RecordingManager.start st req h).2 req h2).1 =
          some RegErr.alreadyRunning) ∧
    (∀ (st : ManagerState) (req : StartReq) (h : Nat),
        (RecordingManager.start (RecordingManager.stop st req.name) req h).1 = none) ∧
    (∀ (st : ManagerState) (req : StartReq) (h : Nat),
        (RecordingManager.start (RecordingManager.finish st req.name) req h).1 = none) := by
  refine ⟨?_, ?_, ?_, ?_, ?_⟩
  · intro st req h hsome
    simp [RecordingManager.start, hsome]
  · intro st req h hnone
    simp [RecordingManager.start, hnone, RecordingManager.is_running, lookupA]
  · intro st req h h2 hnone
    simp [RecordingManager.start, hnone, lookupA]
  · intro st req h
    simp [RecordingManager.start, lookupA_stop]
  · intro st req h
    simp [RecordingManager.start, lookupA_finish]

theorem c5_registry_start_witness :
    (RecordingManager.start st0 req0 0).1 = none ∧
    RecordingManager.is_running (RecordingManager.start st0 req0 0).2 req0.name = true ∧
    (RecordingManager.start st0 req0 0).2.persisted =
      valuesReqs (RecordingManager.start st0 req0 0).2.inner :=
  c5_registry_start.2.1 st0 req0 0 rfl

/-- C6: registry `Stop` on an absent name is a no-op returning success
(map, snapshot, write count and signals all unchanged); on a present name
it removes the record, fires the cancellation handle at most once, and
persists the snapshot. -/
theorem c6_registry_stop :
    (∀ (st : ManagerState) (name : String),
        lookupA st.inner name = none → RecordingManager.stop st name = st) ∧
    (∀ (st : ManagerState) (name : String) (ctrl : RecordingControl),
        lookupA st.inner name = some ctrl →
        (RecordingManager.stop st name).inner = eraseA st.inner name ∧
        RecordingManager.is_running (RecordingManager.stop st name) name = false ∧
        (RecordingManager.stop st name).signals = st.signals ++ ctrl.stop.toList ∧
        (RecordingManager.stop st name).signals.length ≤ st.signals.length + 1 ∧
        (RecordingManager.stop st name).persisted =
          valuesReqs (RecordingManager.stop st name).inner ∧
        (RecordingManager.stop st name).writes = st.writes + 1) := by
  constructor
  · intro st name hnone
    simp [RecordingManager.stop, hnone]
  · intro st name ctrl hsome
    refine ⟨?_, ?_, ?_, ?_, ?_, ?_⟩ <;>
      cases hstop : ctrl.stop <;>
      simp [RecordingManager.stop, RecordingManager.is_running, hsome, hstop,
        lookupA_eraseA, Option.toList]

theorem c6_registry_stop_witness :
    (RecordingManager.stop st1 "cam1").inner = eraseA st1.inner "cam1" :=
  (c6_registry_stop.2 st1 "cam1" ⟨some 0, req0⟩ (by decide)).1

/-- C7: assuming the persistence write succeeds, after every completed
membership-changing operation (`start` insert, `stop` removal, `finish`
removal) the persisted snapshot holds exactly the descriptors of the
records in the registry map, and operations that change nothing (failed
`start`, `stop` or `finish` on an absent name) leave the whole state,
snapshot included, untouched. -/
theorem c7_registry_snapshot :
    (∀ (st : ManagerState) (req : StartReq) (h : Nat),
        (RecordingManager.start st req h).1 = none →
        (RecordingManager.start st req h).2.persisted =
          valuesReqs (RecordingManager.start st req h).2.inner) ∧
    (∀ (st : ManagerState) (req : StartReq) (h : Nat) (e : RegErr),
        (RecordingManager.start st req h).1 = some e →
        (RecordingManager.start st req h).2 = st) ∧
    (∀ (st : ManagerState) (name : String),
        (lookupA st.inner name).isSome = true →
        (RecordingManager.stop st name).persisted =
          valuesReqs (RecordingManager.stop st name).inner) ∧
    (∀ (st : ManagerState) (name : String),
        lookupA st.inner name = none → RecordingManager.stop st name = st) ∧
    (∀ (st : ManagerState) (name : String),
        (lookupA st.inner name).isSome = true →
        (RecordingManager.finish st name).persisted =
          valuesReqs (RecordingManager.finish st name).inner) ∧
    (∀ (st : ManagerState) (name : String),
        lookupA st.inner name = none → RecordingManager.finish st name = st) := by
  refine ⟨?_, ?_, ?_, ?_, ?_, ?_⟩
  · intro st req h hok
    by_cases hc : (lookupA st.inner req.name).isSome
    · simp [RecordingManager.start, hc] at hok
    · simp [RecordingManager.start, hc]
  · intro st req h e herr
    by_cases hc : (lookupA st.inner req.name).isSome
    · simp [RecordingManager.start, hc]
    · simp [RecordingManager.start, hc] at herr
  · intro st name hsome
    cases hc : lookupA st.inner name with
    | none => simp [hc] at hsome
    | some ctrl => cases hstop : ctrl.stop <;> simp [RecordingManager.stop, hc, hstop]
  · intro st name hnone
    simp [RecordingManager.stop, hnone]
  · intro st name hsome
    cases hc : lookupA st.inner name with
    | none => simp [hc] at hsome
    | some ctrl => simp [RecordingManager.finish, hc]
  · intro st name hnone
    simp [RecordingManager.finish, hnone]

theorem c7_registry_snapshot_witness :
    (RecordingManager.stop st1 "cam1").persisted =
      valuesReqs (RecordingManager.stop st1 "cam1").inner :=
  c7_registry_snapshot.2.2.1 st1 "cam1" (by decide)

/-! ## CaptureSupervisor claims -/

/-- C3 (counterexample): the claim says a wait error makes the supervisor
transition to `Retrying`; in the code the `Err` arm of `child.wait()` only
logs and leaves `restart` unset, so the loop exits instead. -/
theorem c3_wait_error_counterexample :
    supervisorStep SpawnResult.ok WaitOutcome.waitFailed ≠ LoopDecision.retryLoop := by
  decide

/-- C3 (amended): the supervisor re-spawns (transitions to `Retrying`)
exactly when the spawned process exits with a failure status; a success
exit, a cancellation signal, a wait error, and a spawn failure all end
the loop.  Each retry performs one additional spawn. -/
theorem c3_supervisor_retry_classification :
    (∀ (s : SpawnResult) (w : WaitOutcome),
        supervisorStep s w = LoopDecision.retryLoop ↔
          s = SpawnResult.ok ∧ w = WaitOutcome.exited false) ∧
    (∀ ws : List WaitOutcome,
        spawnCount (WaitOutcome.exited false :: ws) = 1 + spawnCount ws) := by
  constructor
  · intro s w
    cases s with
    | failed => simp [supervisorStep]
    | ok =>
      cases w with
      | exited b => cases b <;> simp [supervisorStep, waitRestartFlag]
      | waitFailed => simp [supervisorStep, waitRestartFlag]
      | stopRequested => simp [supervisorStep, waitRestartFlag]
  · intro ws
    simp [spawnCount, waitRestartFlag]

/-! ## NameValidator claim -/

/-- C9: `sanitize_name` returns its input unchanged exactly when the
input is non-empty and every character is ASCII alphanumeric, `_` or `-`;
every other input fails with the `invalid name` error.  `cam-1_HD` is
accepted; the empty string, `../x` and `cam 1` are rejected. -/
theorem c9_sanitize_name_contract :
    (∀ s : String, sanitize_name s = Except.ok s ↔
        (s.data.isEmpty = false ∧ s.data.all isValidNameChar = true)) ∧
    (∀ s : String, (s.data.isEmpty || !(s.data.all isValidNameChar)) = true →
        sanitize_name s = Except.error ("invalid name: " ++ s)) ∧
    sanitize_name "cam-1_HD" = Except.ok "cam-1_HD" ∧
    sanitize_name "" = Except.error "invalid name: " ∧
    sanitize_name "../x" = Except.error "invalid name: ../x" ∧
    sanitize_name "cam 1" = Except.error "invalid name: cam 1" := by
  refine ⟨?_, ?_, rfl, rfl, rfl, rfl⟩
  · intro s
    cases hb1 : s.data.isEmpty <;> cases hb2 : s.data.all isValidNameChar <;>
      simp [sanitize_name, hb1, hb2]
  · intro s hc
    simp [sanitize_name, hc]

theorem c9_sanitize_name_witness :
    sanitize_name "cam 1" = Except.error ("invalid name: " ++ "cam 1") :=
  c9_sanitize_name_contract.2.1 "cam 1" (by decide)

/-! ## LoadPersisted claim -/

/-- C10: `RecordingManager::load` maps every failed read of the snapshot
file — not only a missing file — to a successful empty job list; only a
successfully read file whose content fails to parse yields an error. -/
theorem c10_load_error_tolerance :
    (∀ (parse : String → Except Unit (List StartReq)) (k : RecordingManager.IoErrKind),
        RecordingManager.load parse (RecordingManager.ReadResult.err k) = Except.ok []) ∧
    (∀ (parse : String → Except Unit (List StartReq)) (content : String),
        RecordingManager.load parse (RecordingManager.ReadResult.ok content) = parse content) ∧
    RecordingManager.load (fun _ => Except.error ())
      (RecordingManager.ReadResult.err RecordingManager.IoErrKind.permissionDenied) =
      Except.ok [] ∧
    RecordingManager.load (fun _ => Except.error ())
      (RecordingManager.ReadResult.ok "not json") = Except.error () :=
  ⟨fun _ _ => rfl, fun _ _ => rfl, rfl, rfl⟩

/-! ## PathGuard claim -/

theorem canonicalize_mem (w : List (List String)) (p c : List String)
    (h : canonicalize w p = some c) : c ∈ w := by
  unfold canonicalize at h
  by_cases hm : resolveDots p ∈ w
  · simp [hm] at h
    exact h ▸ hm
  · simp [hm] at h

/-- C8: `normalize_segment_path` resolves a relative candidate against the
trusted root (an absolute candidate is taken as-is), canonicalizes both,
and fails with the escape error unless the canonical candidate starts
with the canonical root; every successful result is an existing path
inside the canonical root.  Concretely, against the pending root
`/data/pending`: `../../etc/passwd` fails with escape, while `seg_001.ts`
and the absolute `/data/pending/seg_001.ts` both succeed and return the
canonical in-root path. -/
theorem c8_path_guard :
    (∀ (w : List (List String)) (pd : List String) (seg : String) (out : List String),
        normalize_segment_path w pd seg = Except.ok out →
        ∃ base, canonicalize w pd = some base ∧
          base.isPrefixOf out = true ∧ out ∈ w) ∧
    (∀ (w : List (List String)) (pd : List String) (seg : String)
        (base canon : List String),
        canonicalize w pd = some base →
        canonicalize w
          (if isAbsolutePath seg then pathComps seg else pd ++ pathComps seg) =
          some canon →
        base.isPrefixOf canon = false →
        normalize_segment_path w pd seg = Except.error PathErr.escape) ∧
    (∀ (w : List (List String)) (pd : List String) (seg : String)
        (base canon : List String),
        canonicalize w pd = some base →
        canonicalize w
          (if isAbsolutePath seg then pathComps seg else pd ++ pathComps seg) =
          some canon →
        base.isPrefixOf canon = true →
        normalize_segment_path w pd seg = Except.ok canon) ∧
    normalize_segment_path w0 pdir0 "../../etc/passwd" =
      Except.error PathErr.escape ∧
    normalize_segment_path w0 pdir0 "seg_001.ts" =
      Except.ok ["data", "pending", "seg_001.ts"] ∧
    normalize_segment_path w0 pdir0 "/data/pending/seg_001.ts" =
      Except.ok ["data", "pending", "seg_001.ts"] := by
  refine ⟨?_, ?_, ?_, rfl, rfl, rfl⟩
  · intro w pd seg out hok
    unfold normalize_segment_path at hok
    cases hbase : canonicalize w pd with
    | none => simp [hbase] at hok
    | some base =>
      cases hcanon :
          canonicalize w
            (if isAbsolutePath seg then pathComps seg else pd ++ pathComps seg) with
      | none => simp [hbase, hcanon] at hok
      | some canon =>
        by_cases hp : base.isPrefixOf canon
        · simp [hbase, hcanon, hp] at hok
          exact ⟨base, rfl, hok ▸ hp, hok ▸ canonicalize_mem w _ canon hcanon⟩
        · simp [hbase, hcanon, hp] at hok
  · intro w pd seg base canon hbase hcanon hp
    unfold normalize_segment_path
    simp [hbase, hcanon, hp]
  · intro w pd seg base canon hbase hcanon hp
    unfold normalize_segment_path
    simp [hbase, hcanon, hp]

theorem c8_path_guard_witness :
    normalize_segment_path w0 pdir0 "../../etc/passwd" =
      Except.error PathErr.escape :=
  c8_path_guard.2.1 w0 pdir0 "../../etc/passwd" ["data", "pending"]
    ["etc", "passwd"] rfl rfl rfl

/-! ## ArchiveTransition claim -/

theorem sanitize_name_ok_eq (name n : String)
    (h : sanitize_name name = Except.ok n) : n = name := by
  cases hc : (name.data.isEmpty || !(name.data.all isValidNameChar)) with
  | true => simp [sanitize_name, hc] at h
  | false =>
    simp [sanitize_name, hc] at h
    exact h.symm

theorem moveSegs_error_moveFailed (proot : List String) (n : String) :
    ∀ (segs : List String) (d : Dvr) (e : FinErr),
      (moveSegs proot n d segs).2 = some e → e = FinErr.moveFailed := by
  intro segs
  induction segs with
  | nil =>
    intro d e h
    simp [moveSegs] at h
  | cons seg rest ih =>
    intro d e h
    unfold moveSegs at h
    cases hn : normalize_segment_path (worldOf proot d) proot seg with
    | error pe =>
      simp [hn] at h
      exact h.symm
    | ok src =>
      cases hf : fileNameOf seg with
      | none =>
        simp [hn, hf] at h
        exact h.symm
      | some base =>
        by_cases hdst : (n, base) ∈ d.archSegs
        · simp [hn, hf, hdst] at h
          exact ih _ e h
        · cases htail : src.drop proot.length with
          | nil =>
            simp [hn, hf, hdst, htail] at h
            exact h.symm
          | cons f fs =>
            cases fs with
            | nil =>
              by_cases hmem : f ∈ d.pendingSegs
              · simp [hn, hf, hdst, htail, hmem] at h
                exact ih _ e h
              · simp [hn, hf, hdst, htail, hmem] at h
                exact h.symm
            | cons f2 fs2 =>
              simp [hn, hf, hdst, htail] at h
              exact h.symm

/-- C4: `finalize_to_vod` on a valid name with no pending playlist fails
with the no-such-pending-recording error, and on a name whose pending
playlist exists but whose archive index already exists it fails with the
already-finalized error; the pending-playlist check runs before the
archive-index check (a name with both no pending playlist and an existing
archive index yields the no-such-pending error); and whenever finalize
returns either of these two errors, no segment has been relocated and no
archive index has been written (only the best-effort registry stop has
happened). -/
theorem c4_finalize_preconditions :
    (∀ (proot : List String) (d : Dvr) (name : String),
        sanitize_name name = Except.ok name →
        lookupA d.pendingPl name = none →
        finalize_to_vod proot d name =
          ({ d with mgr := RecordingManager.stop d.mgr name },
            some FinErr.noSuchPending)) ∧
    (∀ (proot : List String) (d : Dvr) (name content : String),
        sanitize_name name = Except.ok name →
        lookupA d.pendingPl name = some content →
        (lookupA d.archIdx name).isSome = true →
        finalize_to_vod proot d name =
          ({ d with mgr := RecordingManager.stop d.mgr name },
            some FinErr.alreadyFinalized)) ∧
    (∀ (proot : List String) (d : Dvr) (name : String),
        sanitize_name name = Except.ok name →
        lookupA d.pendingPl name = none →
        (lookupA d.archIdx name).isSome = true →
        (finalize_to_vod proot d name).2 = some FinErr.noSuchPending) ∧
    (∀ (proot : List String) (d : Dvr) (name : String) (e : FinErr),
        e = FinErr.noSuchPending ∨ e = FinErr.alreadyFinalized →
        (finalize_to_vod proot d name).2 = some e →
        (finalize_to_vod proot d name).1.pendingSegs = d.pendingSegs ∧
        (finalize_to_vod proot d name).1.archSegs = d.archSegs ∧
        (finalize_to_vod proot d name).1.archIdx = d.archIdx ∧
        (finalize_to_vod proot d name).1.pendingPl = d.pendingPl) := by
  refine ⟨?_, ?_, ?_, ?_⟩
  · intro proot d name hval hnone
    simp [finalize_to_vod, hval, hnone]
  · intro proot d name content hval hsome harch
    simp [finalize_to_vod, hval, hsome, harch]
  · intro proot d name hval hnone harch
    simp [finalize_to_vod, hval, hnone]
  · intro proot d name e he herr
    cases hs : sanitize_name name with
    | error msg =>
      simp [finalize_to_vod, hs] at herr
      rcases he with he | he <;> simp [he] at herr
    | ok n =>
      have hn := sanitize_name_ok_eq name n hs
      subst hn
      cases hpl : lookupA d.pendingPl n with
      | none => simp [finalize_to_vod, hs, hpl]
      | some content =>
        by_cases harch : (lookupA d.archIdx n).isSome
        · simp [finalize_to_vod, hs, hpl, harch]
        · exfalso
          rcases hmv :
              moveSegs proot n { d with mgr := RecordingManager.stop d.mgr n }
                (extract_segment_list content) with ⟨d2, me⟩
          cases me with
          | none =>
            simp [finalize_to_vod, hs, hpl, harch, hmv] at herr
          | some e2 =>
            have h2 : e2 = FinErr.moveFailed :=
              moveSegs_error_moveFailed proot n (extract_segment_list content)
                { d with mgr := RecordingManager.stop d.mgr n } e2 (by rw [hmv])
            subst h2
            simp [finalize_to_vod, hs, hpl, harch, hmv] at herr
            rcases he with he | he <;> subst he <;> simp at herr

theorem c4_finalize_witness :
    finalize_to_vod pdir0 dvr1 "cam1" =
      ({ dvr1 with mgr := RecordingManager.stop dvr1.mgr "cam1" },
        some FinErr.alreadyFinalized) :=
  c4_finalize_preconditions.2.1 pdir0 dvr1 "cam1" "#EXTM3U\nseg_0.ts\n" rfl rfl rfl

/-! ## String toolkit lemmas for the playlist rewrite -/

theorem strStartsWith_iff (s p : String) :
    strStartsWith s p = true ↔ p.data <+: s.data := by
  simp [strStartsWith, List.isPrefixOf_iff_prefix]

theorem strStarts_compat (s p q : String)
    (hp : strStartsWith s p = true) (hq : strStartsWith s q = true) :
    strStartsWith p q = true ∨ strStartsWith q p = true := by
  rw [strStartsWith_iff] at hp hq
  rw [strStartsWith_iff, strStartsWith_iff]
  exact Or.symm (List.prefix_or_prefix_of_prefix hp hq)

theorem strStarts_excl (s p q : String) (h : strStartsWith s p = true)
    (h1 : strStartsWith p q = false) (h2 : strStartsWith q p = false) :
    strStartsWith s q = false := by
  cases hq : strStartsWith s q with
  | false => rfl
  | true =>
    rcases strStarts_compat s p q h hq with hx | hx
    · rw [hx] at h1; cases h1
    · rw [hx] at h2; cases h2

theorem strStarts_mono (s p q : String) (hqp : strStartsWith q p = true)
    (h : strStartsWith s q = true) : strStartsWith s p = true := by
  rw [strStartsWith_iff] at hqp h
  rw [strStartsWith_iff]
  exact hqp.trans h

theorem trimEnd_trimEnd (s : String) : trimEnd (trimEnd s) = trimEnd s :=
  congrArg String.mk (List.rdropWhile_idempotent rustIsWhitespace s.data)

theorem rdropWhile_ws_getLast (cs : List Char) (c : Char)
    (h : (cs.rdropWhile rustIsWhitespace).getLast? = some c) :
    rustIsWhitespace c = false := by
  have hne : cs.rdropWhile rustIsWhitespace ≠ [] := by
    intro he
    rw [he] at h
    cases h
  have h2 := List.rdropWhile_last_not rustIsWhitespace cs hne
  have h3 := List.getLast?_eq_getLast (cs.rdropWhile rustIsWhitespace) hne
  rw [h3] at h
  injection h with h4
  rw [← h4]
  simpa using h2

theorem stripCR_of_not_cr (cs : List Char) (h : cs.getLast? ≠ some '\x0d') :
    stripCR cs = cs := by
  simp [stripCR, h]

theorem crStrip_trimEnd (s : String) : crStrip (trimEnd s) = trimEnd s := by
  have h : (trimEnd s).data.getLast? ≠ some '\x0d' := by
    intro hcr
    have h2 := rdropWhile_ws_getLast s.data '\x0d' hcr
    have h3 : rustIsWhitespace '\x0d' = true := by decide
    rw [h3] at h2
    cases h2
  show String.mk (stripCR (trimEnd s).data) = trimEnd s
  rw [stripCR_of_not_cr _ h]

theorem crStrip_of_trimEnd_eq (b : String) (h : trimEnd b = b) :
    crStrip b = b := by
  conv_lhs => rw [← h]
  rw [crStrip_trimEnd, h]

theorem strStarts_crStrip (l p : String) (hp : p.data.getLast? ≠ some '\x0d') :
    strStartsWith (crStrip l) p = strStartsWith l p := by
  by_cases hc : l.data.getLast? = some '\x0d'
  · show (strStartsWith (String.mk (stripCR l.data)) p) = _
    rw [stripCR, if_pos hc]
    have hiff : (p.data <+: l.data.dropLast) ↔ (p.data <+: l.data) := by
      constructor
      · intro h1
        have hdp := List.dropLast_prefix l.data
        exact h1.trans hdp
      · intro h1
        obtain ⟨t, ht⟩ := h1
        cases t with
        | nil =>
          exfalso
          rw [List.append_nil] at ht
          rw [ht] at hp
          exact hp hc
        | cons a ts =>
          refine ⟨(a :: ts).dropLast, ?_⟩
          rw [← ht, List.dropLast_append_cons]
    cases hr : strStartsWith l p with
    | true =>
      rw [strStartsWith_iff] at hr
      show strStartsWith (String.mk l.data.dropLast) p = true
      rw [strStartsWith_iff]
      exact hiff.mpr hr
    | false =>
      cases hr2 : strStartsWith (String.mk l.data.dropLast) p with
      | false => rfl
      | true =>
        rw [strStartsWith_iff] at hr2
        have := hiff.mp hr2
        rw [← strStartsWith_iff] at this
        rw [this] at hr
        cases hr
  · show (strStartsWith (String.mk (stripCR l.data)) p) = _
    rw [stripCR_of_not_cr _ hc]

/-! ## Line splitting and joining -/

theorem splitNL_no_nl (cs : List Char) : ∀ l ∈ splitNL cs, '\n' ∉ l := by
  induction cs with
  | nil => intro l hl; cases hl
  | cons c cs ih =>
    intro l hl
    unfold splitNL at hl
    by_cases hc : c = '\n'
    · rw [if_pos hc] at hl
      rcases List.mem_cons.mp hl with h | h
      · subst h; intro hmem; cases hmem
      · exact ih l h
    · rw [if_neg hc] at hl
      cases hs : splitNL cs with
      | nil =>
        rw [hs] at hl
        rcases List.mem_cons.mp hl with h | h
        · subst h
          intro hmem
          rcases List.mem_cons.mp hmem with h2 | h2
          · exact hc h2.symm
          · cases h2
        · cases h
      | cons l0 ls =>
        rw [hs] at hl
        rcases List.mem_cons.mp hl with h | h
        · subst h
          intro hmem
          rcases List.mem_cons.mp hmem with h2 | h2
          · exact hc h2.symm
          · exact ih l0 (hs ▸ List.mem_cons_self l0 ls) h2
        · exact ih l (hs ▸ List.mem_cons_of_mem l0 h)

theorem splitNL_cons (c : Char) (cs : List Char) :
    splitNL (c :: cs) =
      if c = '\n' then [] :: splitNL cs
      else
        match splitNL cs with
        | [] => [[c]]
        | l :: ls => (c :: l) :: ls := rfl

theorem splitNL_append (l rest : List Char) (h : '\n' ∉ l) :
    splitNL (l ++ '\n' :: rest) = l :: splitNL rest := by
  induction l with
  | nil => simp [splitNL]
  | cons c cs ih =>
    have hc : c ≠ '\n' := fun he => h (he ▸ List.mem_cons_self c cs)
    have hcs : '\n' ∉ cs := fun hm => h (List.mem_cons_of_mem c hm)
    simp only [List.cons_append]
    rw [splitNL_cons, if_neg hc, ih hcs]

theorem splitNL_joinNL (ls : List (List Char)) (h : ∀ l ∈ ls, '\n' ∉ l) :
    splitNL (joinNL ls) = ls := by
  induction ls with
  | nil => rfl
  | cons l ls ih =>
    show splitNL (l ++ '\n' :: joinNL ls) = l :: ls
    rw [splitNL_append l _ (h l (List.mem_cons_self l ls))]
    rw [ih (fun x hx => h x (List.mem_cons_of_mem l hx))]

theorem rustLines_stringOfLines (ls : List String)
    (h : ∀ l ∈ ls, '\n' ∉ l.data) :
    rustLines (stringOfLines ls) = ls.map crStrip := by
  show (splitNL (joinNL (ls.map String.data))).map
    (fun cs => String.mk (stripCR cs)) = ls.map crStrip
  rw [splitNL_joinNL (ls.map String.data) (by
    intro l hl
    rcases List.mem_map.mp hl with ⟨s, hs, hd⟩
    exact hd ▸ h s hs)]
  rw [List.map_map]
  rfl

/-! ## Path components and basenames -/

theorem splitOnChar_not_mem_sep (sep : Char) (cs : List Char) :
    ∀ l ∈ splitOnChar sep cs, sep ∉ l := by
  induction cs with
  | nil =>
    intro l hl
    rcases List.mem_cons.mp hl with h | h
    · subst h; intro hmem; cases hmem
    · cases h
  | cons c cs ih =>
    intro l hl
    unfold splitOnChar at hl
    by_cases hc : c = sep
    · rw [if_pos hc] at hl
      rcases List.mem_cons.mp hl with h | h
      · subst h; intro hmem; cases hmem
      · exact ih l h
    · rw [if_neg hc] at hl
      cases hs : splitOnChar sep cs with
      | nil =>
        rw [hs] at hl
        rcases List.mem_cons.mp hl with h | h
        · subst h
          intro hmem
          rcases List.mem_cons.mp hmem with h2 | h2
          · exact hc h2.symm
          · cases h2
        · cases h
      | cons l0 ls =>
        rw [hs] at hl
        rcases List.mem_cons.mp hl with h | h
        · subst h
          intro hmem
          rcases List.mem_cons.mp hmem with h2 | h2
          · exact hc h2.symm
          · exact ih l0 (hs ▸ List.mem_cons_self l0 ls) h2
        · exact ih l (hs ▸ List.mem_cons_of_mem l0 h)

theorem splitOnChar_subset (sep : Char) (cs : List Char) :
    ∀ l ∈ splitOnChar sep cs, ∀ c ∈ l, c ∈ cs := by
  induction cs with
  | nil =>
    intro l hl c hc
    rcases List.mem_cons.mp hl with h | h
    · subst h; cases hc
    · cases h
  | cons a cs ih =>
    intro l hl c hc
    unfold splitOnChar at hl
    by_cases ha : a = sep
    · rw [if_pos ha] at hl
      rcases List.mem_cons.mp hl with h | h
      · subst h; cases hc
      · exact List.mem_cons_of_mem a (ih l h c hc)
    · rw [if_neg ha] at hl
      cases hs : splitOnChar sep cs with
      | nil =>
        rw [hs] at hl
        rcases List.mem_cons.mp hl with h | h
        · subst h
          rcases List.mem_cons.mp hc with h2 | h2
          · exact h2 ▸ List.mem_cons_self a cs
          · cases h2
        · cases h
      | cons l0 ls =>
        rw [hs] at hl
        rcases List.mem_cons.mp hl with h | h
        · subst h
          rcases List.mem_cons.mp hc with h2 | h2
          · exact h2 ▸ List.mem_cons_self a cs
          · exact List.mem_cons_of_mem a
              (ih l0 (hs ▸ List.mem_cons_self l0 ls) c h2)
        · exact List.mem_cons_of_mem a
            (ih l (hs ▸ List.mem_cons_of_mem l0 h) c hc)

theorem splitOnChar_of_not_mem (sep : Char) (cs : List Char) (h : sep ∉ cs) :
    splitOnChar sep cs = [cs] := by
  induction cs with
  | nil => rfl
  | cons c cs ih =>
    have hc : c ≠ sep := fun he => h (he ▸ List.mem_cons_self c cs)
    have hcs : sep ∉ cs := fun hm => h (List.mem_cons_of_mem c hm)
    unfold splitOnChar
    rw [if_neg (fun he => hc he), ih hcs]

theorem fileNameOf_eq (l : String) :
    fileNameOf l =
      match (((splitOnChar '/' l.data).map String.mk).filter
          (fun c => !(c == "") && !(c == "."))).getLast? with
      | none => none
      | some c => if c = ".." then none else some c := rfl

theorem fileNameOf_some (t c : String) (h : fileNameOf t = some c) :
    c ≠ "" ∧ c ≠ "." ∧ c ≠ ".." ∧ ('/' : Char) ∉ c.data ∧
      (∀ ch ∈ c.data, ch ∈ t.data) := by
  rw [fileNameOf_eq] at h
  cases hg : (((splitOnChar '/' t.data).map String.mk).filter
      (fun c => !(c == "") && !(c == "."))).getLast? with
  | none => rw [hg] at h; cases h
  | some c2 =>
    rw [hg] at h
    rw [show (match some c2 with
        | none => none
        | some c => if c = ".." then none else some c) =
        (if c2 = ".." then none else some c2) from rfl] at h
    by_cases he : c2 = ".."
    · rw [if_pos he] at h; cases h
    · rw [if_neg he] at h
      injection h with h2
      subst h2
      have hmem := List.mem_of_getLast?_eq_some hg
      have hf := List.mem_filter.mp hmem
      have hp := hf.2
      simp only [Bool.and_eq_true, Bool.not_eq_eq_eq_not, Bool.not_true,
        beq_eq_false_iff_ne] at hp
      rcases List.mem_map.mp hf.1 with ⟨part, hpart, hc⟩
      refine ⟨hp.1, hp.2, he, ?_, ?_⟩
      · intro hmem2
        refine splitOnChar_not_mem_sep '/' t.data part hpart ?_
        rw [← hc] at hmem2
        exact hmem2
      · intro ch hch
        refine splitOnChar_subset '/' t.data part hpart ch ?_
        rw [← hc] at hch
        exact hch

theorem basenameOf_idem (t : String) :
    basenameOf (basenameOf t) = basenameOf t := by
  cases hf : fileNameOf t with
  | none => simp [basenameOf, hf]
  | some c =>
    have hc := fileNameOf_some t c hf
    have e1 : (c == "") = false := beq_eq_false_iff_ne.mpr hc.1
    have e2 : (c == ".") = false := beq_eq_false_iff_ne.mpr hc.2.1
    have heta : String.mk c.data = c := rfl
    have hfc : fileNameOf c = some c := by
      rw [fileNameOf_eq, splitOnChar_of_not_mem '/' c.data hc.2.2.2.1]
      simp [heta, e1, e2, hc.2.2.1]
    simp [basenameOf, hf, hfc]

theorem basenameOf_subset (t : String) :
    ∀ ch ∈ (basenameOf t).data, ch ∈ t.data := by
  cases hf : fileNameOf t with
  | none => intro ch hch; simpa [basenameOf, hf] using hch
  | some c =>
    intro ch hch
    rw [basenameOf, hf] at hch
    exact (fileNameOf_some t c hf).2.2.2.2 ch hch

theorem trimEnd_subset (s : String) : ∀ c ∈ (trimEnd s).data, c ∈ s.data := by
  intro c hc
  have hdp := List.rdropWhile_prefix rustIsWhitespace s.data
  exact hdp.subset hc

/-! ## Per-line rewrite lemmas -/

theorem isHeaderLine_eq (l : String) :
    isHeaderLine l = strStartsWith (trimEnd l) hdrLine := rfl

theorem isTypeLine_eq (l : String) :
    isTypeLine l = strStartsWith (trimEnd l) typeMark := rfl

theorem isEndlistLine_eq (l : String) :
    isEndlistLine l = strStartsWith (trimEnd l) endLine := rfl

theorem lineRewrite_of_header (l : String) (h : isHeaderLine l = true) :
    lineRewrite l = hdrLine := by
  rw [isHeaderLine_eq] at h
  unfold lineRewrite
  rw [if_pos h]

theorem lineRewrite_of_type (l : String) (hh : isHeaderLine l = false)
    (ht : isTypeLine l = true) : lineRewrite l = vodLine := by
  rw [isHeaderLine_eq] at hh
  rw [isTypeLine_eq] at ht
  unfold lineRewrite
  rw [if_neg (Bool.eq_false_iff.mp hh), if_pos ht]

theorem lineRewrite_of_comment (l : String) (hh : isHeaderLine l = false)
    (ht : isTypeLine l = false)
    (hc : strStartsWith (trimEnd l) "#" = true) :
    lineRewrite l = trimEnd l := by
  rw [isHeaderLine_eq] at hh
  rw [isTypeLine_eq] at ht
  unfold lineRewrite
  rw [if_neg (Bool.eq_false_iff.mp hh), if_neg (Bool.eq_false_iff.mp ht),
    if_pos hc]

theorem lineRewrite_of_seg (l : String)
    (hc : strStartsWith (trimEnd l) "#" = false) :
    lineRewrite l = basenameOf (trimEnd l) := by
  have hh : isHeaderLine l = false := by
    cases hx : isHeaderLine l with
    | false => rfl
    | true =>
      have h2 := strStarts_mono (trimEnd l) "#" hdrLine (by decide) hx
      rw [h2] at hc
      cases hc
  have ht : isTypeLine l = false := by
    cases hx : isTypeLine l with
    | false => rfl
    | true =>
      have h2 := strStarts_mono (trimEnd l) "#" typeMark (by decide) hx
      rw [h2] at hc
      cases hc
  rw [isHeaderLine_eq] at hh
  rw [isTypeLine_eq] at ht
  unfold lineRewrite
  rw [if_neg (Bool.eq_false_iff.mp hh), if_neg (Bool.eq_false_iff.mp ht),
    if_neg (Bool.eq_false_iff.mp hc)]

/-! ## Lemmas about the type-directive insertion -/

theorem insertTypeAfterHeader_of_no_hdr (L : List String)
    (h : L.any (fun l => strEndsWith l hdrLine) = false) :
    insertTypeAfterHeader L = L := by
  induction L with
  | nil => rfl
  | cons l ls ih =>
    rw [List.any_cons, Bool.or_eq_false_iff] at h
    unfold insertTypeAfterHeader
    rw [if_neg (Bool.eq_false_iff.mp h.1), ih h.2]

theorem mem_insertTypeAfterHeader (L : List String) (x : String)
    (h : x ∈ insertTypeAfterHeader L) : x ∈ L ∨ x = vodLine := by
  induction L with
  | nil => cases h
  | cons l ls ih =>
    unfold insertTypeAfterHeader at h
    by_cases hc : strEndsWith l hdrLine = true
    · rw [if_pos hc] at h
      rcases List.mem_cons.mp h with h1 | h1
      · exact Or.inl (h1 ▸ List.mem_cons_self l ls)
      · rcases List.mem_cons.mp h1 with h2 | h2
        · exact Or.inr h2
        · exact Or.inl (List.mem_cons_of_mem l h2)
    · rw [if_neg hc] at h
      rcases List.mem_cons.mp h with h1 | h1
      · exact Or.inl (h1 ▸ List.mem_cons_self l ls)
      · rcases ih h1 with h2 | h2
        · exact Or.inl (List.mem_cons_of_mem l h2)
        · exact Or.inr h2

theorem subset_insertTypeAfterHeader (L : List String) (x : String)
    (h : x ∈ L) : x ∈ insertTypeAfterHeader L := by
  induction L with
  | nil => cases h
  | cons l ls ih =>
    unfold insertTypeAfterHeader
    by_cases hc : strEndsWith l hdrLine = true
    · rw [if_pos hc]
      rcases List.mem_cons.mp h with h1 | h1
      · exact h1 ▸ List.mem_cons_self l _
      · exact List.mem_cons_of_mem l (List.mem_cons_of_mem vodLine h1)
    · rw [if_neg hc]
      rcases List.mem_cons.mp h with h1 | h1
      · exact h1 ▸ List.mem_cons_self l _
      · exact List.mem_cons_of_mem l (ih h1)

theorem vodLine_mem_insertTypeAfterHeader (L : List String)
    (h : L.any (fun l => strEndsWith l hdrLine) = true) :
    vodLine ∈ insertTypeAfterHeader L := by
  induction L with
  | nil => cases h
  | cons l ls ih =>
    unfold insertTypeAfterHeader
    by_cases hc : strEndsWith l hdrLine = true
    · rw [if_pos hc]
      exact List.mem_cons_of_mem l (List.mem_cons_self vodLine ls)
    · rw [if_neg hc]
      rw [List.any_cons] at h
      rcases Bool.or_eq_true_iff.mp h with h1 | h1
      · exact absurd h1 hc
      · exact List.mem_cons_of_mem l (ih h1)

theorem countTypeLines_insertTypeAfterHeader (L : List String)
    (h : L.any (fun l => strEndsWith l hdrLine) = true) :
    countTypeLines (insertTypeAfterHeader L) = countTypeLines L + 1 := by
  induction L with
  | nil => cases h
  | cons l ls ih =>
    unfold insertTypeAfterHeader
    by_cases hc : strEndsWith l hdrLine = true
    · rw [if_pos hc]
      unfold countTypeLines
      rw [List.countP_cons, List.countP_cons, List.countP_cons]
      have hv : (strStartsWith vodLine typeMark) = true := by decide
      rw [if_pos hv]
      omega
    · rw [if_neg hc]
      rw [List.any_cons] at h
      rcases Bool.or_eq_true_iff.mp h with h1 | h1
      · exact absurd h1 hc
      · unfold countTypeLines at ih ⊢
        rw [List.countP_cons, List.countP_cons, ih h1]
        omega

theorem getLast?_insertTypeAfterHeader (L : List String) (e : String)
    (hL : L.getLast? = some e) (he : strEndsWith e hdrLine = false) :
    (insertTypeAfterHeader L).getLast? = some e := by
  induction L with
  | nil => cases hL
  | cons l ls ih =>
    cases ls with
    | nil =>
      rw [List.getLast?_singleton] at hL
      injection hL with hL
      subst hL
      unfold insertTypeAfterHeader
      rw [if_neg (Bool.eq_false_iff.mp he)]
      rfl
    | cons l2 ls2 =>
      have hL2 : (l2 :: ls2).getLast? = some e := by
        rw [← hL, List.getLast?_cons_cons]
      unfold insertTypeAfterHeader
      by_cases hc : strEndsWith l hdrLine = true
      · rw [if_pos hc]
        rw [List.getLast?_cons_cons, List.getLast?_cons_cons]
        exact hL2
      · rw [if_neg hc]
        have hi := ih hL2
        cases hins : insertTypeAfterHeader (l2 :: ls2) with
        | nil => rw [hins] at hi; cases hi
        | cons m ms =>
          rw [hins] at hi
          rw [List.getLast?_cons_cons]
          exact hi

/-! ## Counting type directives through the rewrite -/

theorem typeFlag_lineRewrite (l : String)
    (hseg : strStartsWith (trimEnd l) "#" = false →
        strStartsWith (basenameOf (trimEnd l)) typeMark = false) :
    strStartsWith (lineRewrite l) typeMark = isTypeLine l := by
  cases hh : isHeaderLine l with
  | true =>
    rw [lineRewrite_of_header l hh]
    have hr : isTypeLine l = false := by
      rw [isTypeLine_eq]
      exact strStarts_excl (trimEnd l) hdrLine typeMark hh (by decide) (by decide)
    rw [hr]
    decide
  | false =>
    cases ht : isTypeLine l with
    | true =>
      rw [lineRewrite_of_type l hh ht]
      decide
    | false =>
      cases hc : strStartsWith (trimEnd l) "#" with
      | true =>
        rw [lineRewrite_of_comment l hh ht hc]
        rw [isTypeLine_eq] at ht
        exact ht
      | false =>
        rw [lineRewrite_of_seg l hc]
        exact hseg hc

theorem countTypeLines_map_lineRewrite (x : List String)
    (h2 : ∀ l ∈ x, strStartsWith (trimEnd l) "#" = false →
        strStartsWith (basenameOf (trimEnd l)) typeMark = false) :
    countTypeLines (x.map lineRewrite) = x.countP isTypeLine := by
  unfold countTypeLines
  rw [List.countP_map]
  refine List.countP_congr ?_
  intro l hl
  have h := typeFlag_lineRewrite l (h2 l hl)
  simp only [Function.comp_apply]
  rw [h]

theorem stageHeader_any_endsHdr (x : List String) :
    ((stageHeader x (x.map lineRewrite)).any
      (fun l => strEndsWith l hdrLine)) = true := by
  unfold stageHeader
  cases hh : x.any isHeaderLine with
  | false =>
    rw [if_neg Bool.false_ne_true]
    rw [List.any_cons]
    have he : strEndsWith hdrLine hdrLine = true := by decide
    rw [he]
    rfl
  | true =>
    rw [if_pos rfl]
    rcases List.any_eq_true.mp hh with ⟨l, hl, hpl⟩
    refine List.any_eq_true.mpr ⟨lineRewrite l, List.mem_map_of_mem _ hl, ?_⟩
    rw [lineRewrite_of_header l hpl]
    decide

theorem countTypeLines_stageHeader (x out : List String) :
    countTypeLines (stageHeader x out) = countTypeLines out := by
  unfold stageHeader
  cases hh : x.any isHeaderLine with
  | true => rw [if_pos rfl]
  | false =>
    rw [if_neg Bool.false_ne_true]
    unfold countTypeLines
    rw [List.countP_cons]
    have h : strStartsWith hdrLine typeMark = false := by decide
    simp [h]

theorem countTypeLines_stageEnd (x out : List String) :
    countTypeLines (stageEnd x out) = countTypeLines out := by
  unfold stageEnd
  cases he : x.any isEndlistLine with
  | true => rw [if_pos rfl]
  | false =>
    rw [if_neg Bool.false_ne_true]
    unfold countTypeLines
    rw [List.countP_append]
    have h : strStartsWith endLine typeMark = false := by decide
    simp [List.countP_cons, h]

theorem countTypeLines_rewriteLines (x : List String)
    (h1 : x.countP isTypeLine ≤ 1)
    (h2 : ∀ l ∈ x, strStartsWith (trimEnd l) "#" = false →
        strStartsWith (basenameOf (trimEnd l)) typeMark = false) :
    countTypeLines (rewriteLines x) = 1 := by
  unfold rewriteLines
  rw [countTypeLines_stageEnd]
  unfold stageType
  cases ht : x.any isTypeLine with
  | true =>
    rw [if_pos rfl]
    rw [countTypeLines_stageHeader, countTypeLines_map_lineRewrite x h2]
    have hpos : 0 < x.countP isTypeLine := List.countP_pos_iff.mpr
      (by rcases List.any_eq_true.mp ht with ⟨l, hl, hpl⟩; exact ⟨l, hl, hpl⟩)
    omega
  | false =>
    rw [if_neg Bool.false_ne_true]
    rw [countTypeLines_insertTypeAfterHeader _ (stageHeader_any_endsHdr x)]
    rw [countTypeLines_stageHeader, countTypeLines_map_lineRewrite x h2]
    have h0 : x.countP isTypeLine = 0 := by
      rw [List.countP_eq_zero]
      intro a ha hpa
      have hany := List.any_eq_true.mpr ⟨a, ha, hpa⟩
      rw [ht] at hany
      cases hany
    omega

/-! ## The terminal marker through the rewrite -/

theorem lineRewrite_of_endline (lst : String) (h : trimEnd lst = endLine) :
    lineRewrite lst = endLine := by
  have hh : isHeaderLine lst = false := by rw [isHeaderLine_eq, h]; decide
  have ht : isTypeLine lst = false := by rw [isTypeLine_eq, h]; decide
  have hc : strStartsWith (trimEnd lst) "#" = true := by rw [h]; decide
  rw [lineRewrite_of_comment lst hh ht hc, h]

theorem getLast_rewriteLines (x : List String)
    (h3 : x.any isEndlistLine = true →
        x.getLast?.map trimEnd = some endLine) :
    (rewriteLines x).getLast? = some endLine := by
  unfold rewriteLines stageEnd
  cases he : x.any isEndlistLine with
  | false =>
    rw [if_neg Bool.false_ne_true]
    exact List.getLast?_concat _
  | true =>
    rw [if_pos rfl]
    rcases List.any_eq_true.mp he with ⟨l0, hl0, _⟩
    have hx : x ≠ [] := by intro hxe; rw [hxe] at hl0; cases hl0
    obtain ⟨lst, hlst⟩ : ∃ lst, x.getLast? = some lst := by
      cases hgl : x.getLast? with
      | none => exact absurd (List.getLast?_eq_none_iff.mp hgl) hx
      | some lst => exact ⟨lst, rfl⟩
    have hend : trimEnd lst = endLine := by
      have h4 := h3 he
      rw [hlst] at h4
      simpa using h4
    have hmap : (x.map lineRewrite).getLast? = some endLine := by
      rw [List.getLast?_map, hlst]
      simp [lineRewrite_of_endline lst hend]
    have hout1 : (stageHeader x (x.map lineRewrite)).getLast? = some endLine := by
      unfold stageHeader
      cases hh : x.any isHeaderLine with
      | true => rw [if_pos rfl]; exact hmap
      | false =>
        rw [if_neg Bool.false_ne_true]
        cases hm : x.map lineRewrite with
        | nil => rw [hm] at hmap; cases hmap
        | cons m ms =>
          rw [hm] at hmap
          rw [List.getLast?_cons_cons]
          exact hmap
    unfold stageType
    cases htp : x.any isTypeLine with
    | true => rw [if_pos rfl]; exact hout1
    | false =>
      rw [if_neg Bool.false_ne_true]
      exact getLast?_insertTypeAfterHeader _ endLine hout1 (by decide)

/-! ## Transfer from line lists back to strings -/

theorem rustLines_no_nl (s : String) : ∀ l ∈ rustLines s, '\n' ∉ l.data := by
  intro l hl
  unfold rustLines at hl
  rcases List.mem_map.mp hl with ⟨cs, hcs, heq⟩
  subst heq
  intro hmem
  have h1 : '\n' ∈ stripCR cs := hmem
  have h2 : '\n' ∈ cs := by
    unfold stripCR at h1
    by_cases hc : cs.getLast? = some '\x0d'
    · rw [if_pos hc] at h1
      have hdp := List.dropLast_prefix cs
      exact hdp.subset h1
    · rw [if_neg hc] at h1
      exact h1
  exact splitNL_no_nl s.data cs hcs h2

theorem lineRewrite_no_nl (l : String) (h : '\n' ∉ l.data) :
    '\n' ∉ (lineRewrite l).data := by
  have htrim : '\n' ∉ (trimEnd l).data := fun hm => h (trimEnd_subset l _ hm)
  cases hh : isHeaderLine l with
  | true => rw [lineRewrite_of_header l hh]; decide
  | false =>
    cases ht : isTypeLine l with
    | true => rw [lineRewrite_of_type l hh ht]; decide
    | false =>
      cases hc : strStartsWith (trimEnd l) "#" with
      | true =>
        rw [lineRewrite_of_comment l hh ht hc]
        exact htrim
      | false =>
        rw [lineRewrite_of_seg l hc]
        intro hm
        exact htrim (basenameOf_subset (trimEnd l) _ hm)

theorem rewriteLines_mem_cases (x : List String) (l : String)
    (h : l ∈ rewriteLines x) :
    l = hdrLine ∨ l = vodLine ∨ l = endLine ∨
      ∃ l₀, l₀ ∈ x ∧ l = lineRewrite l₀ := by
  unfold rewriteLines stageEnd at h
  have hmem2 : l ∈ stageType x (stageHeader x (x.map lineRewrite)) ∨
      l = endLine := by
    by_cases he : x.any isEndlistLine = true
    · rw [if_pos he] at h
      exact Or.inl h
    · rw [if_neg he] at h
      rcases List.mem_append.mp h with h1 | h1
      · exact Or.inl h1
      · rcases List.mem_cons.mp h1 with h2 | h2
        · exact Or.inr h2
        · cases h2
  rcases hmem2 with h1 | h1
  · unfold stageType at h1
    have hmem3 : l ∈ stageHeader x (x.map lineRewrite) ∨ l = vodLine := by
      by_cases ht : x.any isTypeLine = true
      · rw [if_pos ht] at h1
        exact Or.inl h1
      · rw [if_neg ht] at h1
        exact mem_insertTypeAfterHeader _ l h1
    rcases hmem3 with h2 | h2
    · unfold stageHeader at h2
      have hmem4 : l ∈ x.map lineRewrite ∨ l = hdrLine := by
        by_cases hhh : x.any isHeaderLine = true
        · rw [if_pos hhh] at h2
          exact Or.inl h2
        · rw [if_neg hhh] at h2
          rcases List.mem_cons.mp h2 with h3 | h3
          · exact Or.inr h3
          · exact Or.inl h3
      rcases hmem4 with h3 | h3
      · rcases List.mem_map.mp h3 with ⟨l₀, hl₀, heq⟩
        exact Or.inr (Or.inr (Or.inr ⟨l₀, hl₀, heq.symm⟩))
      · exact Or.inl h3
    · exact Or.inr (Or.inl h2)
  · exact Or.inr (Or.inr (Or.inl h1))

theorem rewriteLines_no_nl (x : List String)
    (hx : ∀ l ∈ x, '\n' ∉ l.data) :
    ∀ l ∈ rewriteLines x, '\n' ∉ l.data := by
  intro l hl
  rcases rewriteLines_mem_cases x l hl with h | h | h | ⟨l₀, hl₀, heq⟩
  · subst h; decide
  · subst h; decide
  · subst h; decide
  · subst heq
    exact lineRewrite_no_nl l₀ (hx l₀ hl₀)

theorem rustLines_rewrite (s : String) :
    rustLines (rewrite_playlist_to_vod s) =
      (rewriteLines (rustLines s)).map crStrip := by
  unfold rewrite_playlist_to_vod
  exact rustLines_stringOfLines _ (rewriteLines_no_nl _ (rustLines_no_nl s))

theorem countTypeLines_map_crStrip (L : List String) :
    countTypeLines (L.map crStrip) = countTypeLines L := by
  unfold countTypeLines
  rw [List.countP_map]
  refine List.countP_congr ?_
  intro l hl
  simp only [Function.comp_apply]
  rw [strStarts_crStrip l typeMark (by decide)]

/-! ## PlaylistTransform claims -/

/-- C1 (counterexample): an input with two playlist-type directive lines
is rewritten to a text with two playlist-type directives, so the claimed
"exactly one playlist-type directive for every input" is false. -/
theorem c1_counterexample_two_type_directives :
    ¬ (countTypeLines (rustLines (rewrite_playlist_to_vod
        "#EXT-X-PLAYLIST-TYPE:A\n#EXT-X-PLAYLIST-TYPE:B")) = 1 ∧
      (rustLines (rewrite_playlist_to_vod
        "#EXT-X-PLAYLIST-TYPE:A\n#EXT-X-PLAYLIST-TYPE:B")).getLast? =
        some endLine) := by
  decide

/-- C1 (amended): for every input text whose line list contains at most
one playlist-type directive line, in which no segment (non-comment) line
has a basename beginning with the playlist-type directive prefix, and in
which, whenever some line starts with the end-of-list marker, the last
line trims to exactly that marker, the rewritten playlist contains
exactly one playlist-type directive line, that line is exactly
`#EXT-X-PLAYLIST-TYPE:VOD`, and the last line is the terminal
`#EXT-X-ENDLIST` marker. -/
theorem c1_rewrite_unique_type_and_terminal :
    ∀ s : String,
      (rustLines s).countP isTypeLine ≤ 1 →
      (∀ l ∈ rustLines s, strStartsWith (trimEnd l) "#" = false →
          strStartsWith (basenameOf (trimEnd l)) typeMark = false) →
      ((rustLines s).any isEndlistLine = true →
          (rustLines s).getLast?.map trimEnd = some endLine) →
      countTypeLines (rustLines (rewrite_playlist_to_vod s)) = 1 ∧
      (∀ l ∈ rustLines (rewrite_playlist_to_vod s),
          strStartsWith l typeMark = true → l = vodLine) ∧
      (rustLines (rewrite_playlist_to_vod s)).getLast? = some endLine := by
  intro s h1 h2 h3
  refine ⟨?_, ?_, ?_⟩
  · rw [rustLines_rewrite, countTypeLines_map_crStrip]
    exact countTypeLines_rewriteLines _ h1 h2
  · intro l hl hstart
    rw [rustLines_rewrite] at hl
    rcases List.mem_map.mp hl with ⟨m, hm, heq⟩
    subst heq
    rw [strStarts_crStrip m typeMark (by decide)] at hstart
    rcases rewriteLines_mem_cases _ m hm with h | h | h | ⟨l₀, hl₀, heq2⟩
    · subst h; exact absurd hstart (by decide)
    · subst h; decide
    · subst h; exact absurd hstart (by decide)
    · subst heq2
      cases hh : isHeaderLine l₀ with
      | true =>
        rw [lineRewrite_of_header l₀ hh] at hstart
        exact absurd hstart (by decide)
      | false =>
        cases ht : isTypeLine l₀ with
        | true =>
          rw [lineRewrite_of_type l₀ hh ht]
          decide
        | false =>
          cases hc : strStartsWith (trimEnd l₀) "#" with
          | true =>
            rw [lineRewrite_of_comment l₀ hh ht hc] at hstart
            rw [isTypeLine_eq] at ht
            rw [hstart] at ht
            cases ht
          | false =>
            rw [lineRewrite_of_seg l₀ hc] at hstart
            rw [h2 l₀ hl₀ hc] at hstart
            cases hstart
  · rw [rustLines_rewrite, List.getLast?_map, getLast_rewriteLines _ h3]
    have he : crStrip endLine = endLine := by decide
    simp [he]

theorem c1_rewrite_witness :
    countTypeLines (rustLines (rewrite_playlist_to_vod
      "#EXTM3U\n#EXT-X-PLAYLIST-TYPE:EVENT\nseg_0.ts\n")) = 1 ∧
    (∀ l ∈ rustLines (rewrite_playlist_to_vod
        "#EXTM3U\n#EXT-X-PLAYLIST-TYPE:EVENT\nseg_0.ts\n"),
        strStartsWith l typeMark = true → l = vodLine) ∧
    (rustLines (rewrite_playlist_to_vod
      "#EXTM3U\n#EXT-X-PLAYLIST-TYPE:EVENT\nseg_0.ts\n")).getLast? =
      some endLine :=
  c1_rewrite_unique_type_and_terminal
    "#EXTM3U\n#EXT-X-PLAYLIST-TYPE:EVENT\nseg_0.ts\n"
    (by decide) (by decide) (by decide)

/-! ## Idempotence machinery -/

theorem stageHeader_id (x out : List String)
    (h : x.any isHeaderLine = true) : stageHeader x out = out := by
  unfold stageHeader
  rw [if_pos h]

theorem stageType_id (x out : List String)
    (h : x.any isTypeLine = true) : stageType x out = out := by
  unfold stageType
  rw [if_pos h]

theorem stageEnd_id (x out : List String)
    (h : x.any isEndlistLine = true) : stageEnd x out = out := by
  unfold stageEnd
  rw [if_pos h]

theorem map_eq_self_of_fix {α : Type} (f : α → α) (L : List α)
    (h : ∀ l ∈ L, f l = l) : L.map f = L := by
  induction L with
  | nil => rfl
  | cons a as ih =>
    rw [List.map_cons, h a (List.mem_cons_self a as),
      ih (fun l hl => h l (List.mem_cons_of_mem a hl))]

theorem lineRewrite_lineRewrite (l : String)
    (hb : strStartsWith (trimEnd l) "#" = false →
        (trimEnd (basenameOf (trimEnd l)) = basenameOf (trimEnd l) ∧
         strStartsWith (basenameOf (trimEnd l)) typeMark = false ∧
         strStartsWith (basenameOf (trimEnd l)) hdrLine = false)) :
    lineRewrite (lineRewrite l) = lineRewrite l := by
  cases hh : isHeaderLine l with
  | true => rw [lineRewrite_of_header l hh]; decide
  | false =>
    cases ht : isTypeLine l with
    | true => rw [lineRewrite_of_type l hh ht]; decide
    | false =>
      cases hc : strStartsWith (trimEnd l) "#" with
      | true =>
        rw [lineRewrite_of_comment l hh ht hc]
        have hh2 : isHeaderLine (trimEnd l) = false := by
          rw [isHeaderLine_eq, trimEnd_trimEnd]
          rw [isHeaderLine_eq] at hh
          exact hh
        have ht2 : isTypeLine (trimEnd l) = false := by
          rw [isTypeLine_eq, trimEnd_trimEnd]
          rw [isTypeLine_eq] at ht
          exact ht
        have hc2 : strStartsWith (trimEnd (trimEnd l)) "#" = true := by
          rw [trimEnd_trimEnd]
          exact hc
        rw [lineRewrite_of_comment (trimEnd l) hh2 ht2 hc2, trimEnd_trimEnd]
      | false =>
        rw [lineRewrite_of_seg l hc]
        rcases hb hc with ⟨hbt, hbty, hbh⟩
        have hh2 : isHeaderLine (basenameOf (trimEnd l)) = false := by
          rw [isHeaderLine_eq, hbt]
          exact hbh
        have ht2 : isTypeLine (basenameOf (trimEnd l)) = false := by
          rw [isTypeLine_eq, hbt]
          exact hbty
        cases hcb : strStartsWith (trimEnd (basenameOf (trimEnd l))) "#" with
        | true =>
          rw [lineRewrite_of_comment (basenameOf (trimEnd l)) hh2 ht2 hcb, hbt]
        | false =>
          rw [lineRewrite_of_seg (basenameOf (trimEnd l)) hcb, hbt]
          exact basenameOf_idem (trimEnd l)

theorem rewriteLines_any_header (x : List String) :
    (rewriteLines x).any isHeaderLine = true := by
  refine List.any_eq_true.mpr ⟨hdrLine, ?_, by decide⟩
  have hmem : hdrLine ∈ stageHeader x (x.map lineRewrite) := by
    unfold stageHeader
    by_cases hh : x.any isHeaderLine = true
    · rw [if_pos hh]
      rcases List.any_eq_true.mp hh with ⟨l, hl, hpl⟩
      exact lineRewrite_of_header l hpl ▸ List.mem_map_of_mem lineRewrite hl
    · rw [if_neg hh]
      exact List.mem_cons_self _ _
  have hmem2 : hdrLine ∈ stageType x (stageHeader x (x.map lineRewrite)) := by
    unfold stageType
    by_cases ht : x.any isTypeLine = true
    · rw [if_pos ht]
      exact hmem
    · rw [if_neg ht]
      exact subset_insertTypeAfterHeader _ _ hmem
  show hdrLine ∈ stageEnd x (stageType x (stageHeader x (x.map lineRewrite)))
  unfold stageEnd
  by_cases he : x.any isEndlistLine = true
  · rw [if_pos he]
    exact hmem2
  · rw [if_neg he]
    exact List.mem_append_left _ hmem2

theorem rewriteLines_any_type (x : List String) :
    (rewriteLines x).any isTypeLine = true := by
  refine List.any_eq_true.mpr ⟨vodLine, ?_, by decide⟩
  have hmem2 : vodLine ∈ stageType x (stageHeader x (x.map lineRewrite)) := by
    unfold stageType
    by_cases ht : x.any isTypeLine = true
    · rw [if_pos ht]
      rcases List.any_eq_true.mp ht with ⟨l, hl, hpl⟩
      have hh : isHeaderLine l = false := by
        rw [isHeaderLine_eq]
        exact strStarts_excl (trimEnd l) typeMark hdrLine hpl
          (by decide) (by decide)
      have hmem : vodLine ∈ x.map lineRewrite :=
        lineRewrite_of_type l hh hpl ▸ List.mem_map_of_mem lineRewrite hl
      unfold stageHeader
      by_cases hh2 : x.any isHeaderLine = true
      · rw [if_pos hh2]
        exact hmem
      · rw [if_neg hh2]
        exact List.mem_cons_of_mem _ hmem
    · rw [if_neg ht]
      exact vodLine_mem_insertTypeAfterHeader _ (stageHeader_any_endsHdr x)
  show vodLine ∈ stageEnd x (stageType x (stageHeader x (x.map lineRewrite)))
  unfold stageEnd
  by_cases he : x.any isEndlistLine = true
  · rw [if_pos he]
    exact hmem2
  · rw [if_neg he]
    exact List.mem_append_left _ hmem2

theorem rewriteLines_any_endlist (x : List String) :
    (rewriteLines x).any isEndlistLine = true := by
  show (stageEnd x (stageType x (stageHeader x (x.map lineRewrite)))).any
    isEndlistLine = true
  unfold stageEnd
  by_cases he : x.any isEndlistLine = true
  · rw [if_pos he]
    rcases List.any_eq_true.mp he with ⟨l, hl, hpl⟩
    have hh : isHeaderLine l = false := by
      rw [isHeaderLine_eq]
      exact strStarts_excl (trimEnd l) endLine hdrLine hpl
        (by decide) (by decide)
    have ht : isTypeLine l = false := by
      rw [isTypeLine_eq]
      exact strStarts_excl (trimEnd l) endLine typeMark hpl
        (by decide) (by decide)
    have hc : strStartsWith (trimEnd l) "#" = true :=
      strStarts_mono (trimEnd l) "#" endLine (by decide) hpl
    have him := lineRewrite_of_comment l hh ht hc
    refine List.any_eq_true.mpr ⟨trimEnd l, ?_, ?_⟩
    · have hmem : trimEnd l ∈ x.map lineRewrite :=
        him ▸ List.mem_map_of_mem lineRewrite hl
      have hmem1 : trimEnd l ∈ stageHeader x (x.map lineRewrite) := by
        unfold stageHeader
        by_cases hh2 : x.any isHeaderLine = true
        · rw [if_pos hh2]
          exact hmem
        · rw [if_neg hh2]
          exact List.mem_cons_of_mem _ hmem
      unfold stageType
      by_cases ht2 : x.any isTypeLine = true
      · rw [if_pos ht2]
        exact hmem1
      · rw [if_neg ht2]
        exact subset_insertTypeAfterHeader _ _ hmem1
    · rw [isEndlistLine_eq, trimEnd_trimEnd]
      exact hpl
  · rw [if_neg he]
    exact List.any_eq_true.mpr
      ⟨endLine, List.mem_append_right _ (List.mem_cons_self _ _), by decide⟩

theorem rewriteLines_idem (x : List String)
    (hb : ∀ l ∈ x, strStartsWith (trimEnd l) "#" = false →
        (trimEnd (basenameOf (trimEnd l)) = basenameOf (trimEnd l) ∧
         strStartsWith (basenameOf (trimEnd l)) typeMark = false ∧
         strStartsWith (basenameOf (trimEnd l)) hdrLine = false)) :
    rewriteLines (rewriteLines x) = rewriteLines x := by
  have hfix : ∀ l ∈ rewriteLines x, lineRewrite l = l := by
    intro l hl
    rcases rewriteLines_mem_cases x l hl with h | h | h | ⟨l₀, hl₀, heq⟩
    · subst h; decide
    · subst h; decide
    · subst h; decide
    · subst heq
      exact lineRewrite_lineRewrite l₀ (hb l₀ hl₀)
  show stageEnd (rewriteLines x) (stageType (rewriteLines x)
      (stageHeader (rewriteLines x) ((rewriteLines x).map lineRewrite))) =
    rewriteLines x
  rw [map_eq_self_of_fix lineRewrite _ hfix,
    stageHeader_id _ _ (rewriteLines_any_header x),
    stageType_id _ _ (rewriteLines_any_type x),
    stageEnd_id _ _ (rewriteLines_any_endlist x)]

theorem crStrip_fix_rewriteLines (x : List String)
    (hb : ∀ l ∈ x, strStartsWith (trimEnd l) "#" = false →
        trimEnd (basenameOf (trimEnd l)) = basenameOf (trimEnd l)) :
    ∀ l ∈ rewriteLines x, crStrip l = l := by
  intro l hl
  rcases rewriteLines_mem_cases x l hl with h | h | h | ⟨l₀, hl₀, heq⟩
  · subst h; decide
  · subst h; decide
  · subst h; decide
  · subst heq
    cases hh : isHeaderLine l₀ with
    | true => rw [lineRewrite_of_header l₀ hh]; decide
    | false =>
      cases ht : isTypeLine l₀ with
      | true => rw [lineRewrite_of_type l₀ hh ht]; decide
      | false =>
        cases hc : strStartsWith (trimEnd l₀) "#" with
        | true =>
          rw [lineRewrite_of_comment l₀ hh ht hc]
          exact crStrip_trimEnd l₀
        | false =>
          rw [lineRewrite_of_seg l₀ hc]
          exact crStrip_of_trimEnd_eq _ (hb l₀ hl₀ hc)

/-- C2 (counterexample): the line `a /` (whose basename `a ` keeps a
trailing space) is rewritten to `a `, which a second rewrite trims to
`a`, so `rewrite_playlist_to_vod` is not idempotent on all inputs. -/
theorem c2_counterexample_trailing_space :
    rewrite_playlist_to_vod (rewrite_playlist_to_vod "a /") ≠
      rewrite_playlist_to_vod "a /" := by
  decide

/-- C2 (amended): `rewrite_playlist_to_vod` is idempotent on every input
in which each segment (non-comment) line has a basename that carries no
trailing whitespace and does not begin with the playlist-type directive
prefix or the header tag.  (The counterexample shows the restriction is
needed: a basename with trailing whitespace is trimmed only by the second
pass; a basename that spells a directive is reinterpreted by the second
pass.) -/
theorem c2_rewrite_idempotent :
    ∀ s : String,
      (∀ l ∈ rustLines s, strStartsWith (trimEnd l) "#" = false →
          (trimEnd (basenameOf (trimEnd l)) = basenameOf (trimEnd l) ∧
           strStartsWith (basenameOf (trimEnd l)) typeMark = false ∧
           strStartsWith (basenameOf (trimEnd l)) hdrLine = false)) →
      rewrite_playlist_to_vod (rewrite_playlist_to_vod s) =
        rewrite_playlist_to_vod s := by
  intro s hb
  have h1 : rustLines (rewrite_playlist_to_vod s) =
      rewriteLines (rustLines s) := by
    rw [rustLines_rewrite]
    exact map_eq_self_of_fix crStrip _
      (crStrip_fix_rewriteLines _ (fun l hl hc => (hb l hl hc).1))
  show stringOfLines (rewriteLines (rustLines (rewrite_playlist_to_vod s))) =
    rewrite_playlist_to_vod s
  rw [h1, rewriteLines_idem _ hb]
  rfl

theorem c2_rewrite_witness :
    rewrite_playlist_to_vod (rewrite_playlist_to_vod
      "#EXTM3U\n#EXT-X-PLAYLIST-TYPE:EVENT\nseg_0.ts\n") =
      rewrite_playlist_to_vod
        "#EXTM3U\n#EXT-X-PLAYLIST-TYPE:EVENT\nseg_0.ts\n" :=
  c2_rewrite_idempotent "#EXTM3U\n#EXT-X-PLAYLIST-TYPE:EVENT\nseg_0.ts\n"
    (by decide)

end HttpliveDvr
